import Mathlib

set_option maxHeartbeats 1000000

/-! Verification of the cdk-http-openapi construct library.

Shallow embedding of `src/http-openapi.ts` and `src/types.ts`.  Parsed YAML
mappings and JavaScript objects are modelled as association lists over string
keys: assignment (`obj[k] = v`) overwrites the entry in place when the key is
present and appends otherwise, and lookup returns the value at the (unique)
key.  Values that are only known at deployment time (CloudFormation tokens
such as `attrApiId`, `functionArn`, `attrIntegrationId`) are modelled by the
deterministic strings the construct would interpolate them into. -/

/-- JavaScript object field lookup over an association list. -/
def recordGet {α : Type} : List (String × α) → String → Option α
  | [], _ => none
  | (k', v') :: r, k => if k = k' then some v' else recordGet r k

/-- JavaScript object field assignment: overwrite in place when the key is
present, append otherwise. -/
def recordSet {α : Type} : List (String × α) → String → α → List (String × α)
  | [], k, v => [(k, v)]
  | (k', v') :: r, k, v => if k = k' then (k, v) :: r else (k', v') :: recordSet r k v

/-- Modify the value stored at a key, leaving all other entries unchanged. -/
def recordModify {α : Type} : List (String × α) → String → (α → α) → List (String × α)
  | [], _, _ => []
  | (k', v') :: r, k, f =>
    if k = k' then (k', f v') :: recordModify r k f else (k', v') :: recordModify r k f

theorem recordGet_set_self {α : Type} (r : List (String × α)) (k : String) (v : α) :
    recordGet (recordSet r k v) k = some v := by
  induction r with
  | nil => simp [recordGet, recordSet]
  | cons kv r ih =>
    obtain ⟨k', v'⟩ := kv
    by_cases h : k = k' <;> simp [recordGet, recordSet, h, ih]

theorem recordGet_set_ne {α : Type} (r : List (String × α)) {k k' : String} (v : α)
    (h : ¬ k = k') : recordGet (recordSet r k' v) k = recordGet r k := by
  induction r with
  | nil => simp [recordGet, recordSet, h]
  | cons kv r ih =>
    obtain ⟨k₀, v₀⟩ := kv
    by_cases h0 : k' = k₀
    · subst h0
      simp [recordGet, recordSet, h]
    · by_cases h1 : k = k₀ <;> simp [recordGet, recordSet, h0, h1, ih]

theorem recordGet_append {α : Type} (r₁ r₂ : List (String × α)) (k : String) :
    recordGet (r₁ ++ r₂) k =
      match recordGet r₁ k with
      | some v => some v
      | none => recordGet r₂ k := by
  induction r₁ with
  | nil => simp [recordGet]
  | cons kv r ih =>
    obtain ⟨k', v'⟩ := kv
    by_cases h : k = k' <;> simp [recordGet, h, ih]

theorem recordSet_eq_append {α : Type} (r : List (String × α)) (k : String) (v : α)
    (h : recordGet r k = none) : recordSet r k v = r ++ [(k, v)] := by
  induction r with
  | nil => simp [recordSet]
  | cons kv r ih =>
    obtain ⟨k', v'⟩ := kv
    by_cases h0 : k = k'
    · simp [recordGet, h0] at h
    · simp [recordGet, h0] at h
      simp [recordSet, h0, ih h]

theorem mem_of_recordGet_some {α : Type} {r : List (String × α)} {k : String} {v : α}
    (h : recordGet r k = some v) : (k, v) ∈ r := by
  induction r with
  | nil => simp [recordGet] at h
  | cons kv r ih =>
    obtain ⟨k', v'⟩ := kv
    by_cases h0 : k = k'
    · simp [recordGet, h0] at h
      simp [h0, h]
    · simp [recordGet, h0] at h
      simp [ih h]

theorem recordGet_of_mem_nodup {α : Type} {r : List (String × α)} {k : String} {v : α}
    (hmem : (k, v) ∈ r) (hnd : (r.map Prod.fst).Nodup) : recordGet r k = some v := by
  induction r with
  | nil => simp at hmem
  | cons kv r ih =>
    obtain ⟨k', v'⟩ := kv
    simp only [List.map_cons, List.nodup_cons] at hnd
    rcases List.mem_cons.mp hmem with h | h
    · obtain ⟨rfl, rfl⟩ := Prod.mk.injEq .. ▸ h
      simp_all [recordGet]
    · have hk : ¬ k = k' := by
        intro hkk
        subst hkk
        exact hnd.1 (List.mem_map.mpr ⟨(k, v), h, rfl⟩)
      simp [recordGet, hk, ih h hnd.2]

theorem recordGet_modify_self {α : Type} (r : List (String × α)) (k : String) (f : α → α) :
    recordGet (recordModify r k f) k = (recordGet r k).map f := by
  induction r with
  | nil => simp [recordGet, recordModify]
  | cons kv r ih =>
    obtain ⟨k', v'⟩ := kv
    by_cases h : k = k' <;> simp [recordGet, recordModify, h, ih]

theorem recordGet_modify_ne {α : Type} (r : List (String × α)) {k k' : String} (f : α → α)
    (h : ¬ k = k') : recordGet (recordModify r k' f) k = recordGet r k := by
  induction r with
  | nil => simp [recordGet, recordModify]
  | cons kv r ih =>
    obtain ⟨k₀, v₀⟩ := kv
    by_cases h0 : k' = k₀
    · subst h0
      simp [recordGet, recordModify, h, ih]
    · by_cases h1 : k = k₀ <;> simp [recordGet, recordModify, h0, h1, ih]

/-- Iterated JavaScript object assignment, in list order. -/
def applyAll {α : Type} : List (String × α) → List (String × α) → List (String × α)
  | acc, [] => acc
  | acc, (k, v) :: l => applyAll (recordSet acc k v) l

theorem applyAll_append {α : Type} (l₁ l₂ acc : List (String × α)) :
    applyAll acc (l₁ ++ l₂) = applyAll (applyAll acc l₁) l₂ := by
  induction l₁ generalizing acc with
  | nil => simp [applyAll]
  | cons kv l ih =>
    obtain ⟨k, v⟩ := kv
    simp [applyAll, ih]

theorem recordGet_applyAll_not_mem {α : Type} (l acc : List (String × α)) {k : String}
    (h : ¬ k ∈ l.map Prod.fst) : recordGet (applyAll acc l) k = recordGet acc k := by
  induction l generalizing acc with
  | nil => simp [applyAll]
  | cons kv l ih =>
    obtain ⟨k₀, v₀⟩ := kv
    simp only [List.map_cons, List.mem_cons, not_or] at h
    rw [applyAll, ih _ h.2, recordGet_set_ne _ _ h.1]

theorem recordGet_applyAll_of_mem_nodup {α : Type} (l acc : List (String × α))
    {k : String} {v : α} (hnd : (l.map Prod.fst).Nodup) (hmem : (k, v) ∈ l) :
    recordGet (applyAll acc l) k = some v := by
  induction l generalizing acc with
  | nil => simp at hmem
  | cons kv l ih =>
    obtain ⟨k₀, v₀⟩ := kv
    simp only [List.map_cons, List.nodup_cons] at hnd
    rcases List.mem_cons.mp hmem with h | h
    · obtain ⟨rfl, rfl⟩ := Prod.mk.injEq .. ▸ h
      rw [applyAll, recordGet_applyAll_not_mem _ _ hnd.1, recordGet_set_self]
    · exact ih (recordSet acc k₀ v₀) hnd.2 h

theorem length_applyAll {α : Type} (l acc : List (String × α))
    (hnd : (l.map Prod.fst).Nodup)
    (hfresh : ∀ k, k ∈ l.map Prod.fst → recordGet acc k = none) :
    (applyAll acc l).length = acc.length + l.length := by
  induction l generalizing acc with
  | nil => simp [applyAll]
  | cons kv l ih =>
    obtain ⟨k₀, v₀⟩ := kv
    simp only [List.map_cons, List.nodup_cons] at hnd
    have hk₀ : recordGet acc k₀ = none := hfresh k₀ (by simp)
    have hset : recordSet acc k₀ v₀ = acc ++ [(k₀, v₀)] := recordSet_eq_append _ _ _ hk₀
    have hfresh' : ∀ k, k ∈ l.map Prod.fst → recordGet (recordSet acc k₀ v₀) k = none := by
      intro k hkmem
      have hne : ¬ k = k₀ := fun hkk => hnd.1 (hkk ▸ hkmem)
      rw [hset, recordGet_append]
      simp [hfresh k (by simp [hkmem]), recordGet, hne]
    rw [applyAll, ih _ hnd.2 hfresh', hset]
    simp
    omega

theorem recordGet_applyAll_last {α : Type} (l₁ l₂ acc : List (String × α))
    {k : String} (v : α) (h : ¬ k ∈ l₂.map Prod.fst) :
    recordGet (applyAll acc (l₁ ++ (k, v) :: l₂)) k = some v := by
  rw [applyAll_append]
  rw [show applyAll (applyAll acc l₁) ((k, v) :: l₂)
      = applyAll (recordSet (applyAll acc l₁) k v) l₂ from rfl]
  rw [recordGet_applyAll_not_mem _ _ h, recordGet_set_self]

theorem recordGet_applyAll_mem_or {α : Type} (l acc : List (String × α)) {k : String} {v : α}
    (h : recordGet (applyAll acc l) k = some v) : (k, v) ∈ l ∨ recordGet acc k = some v := by
  induction l generalizing acc with
  | nil => exact Or.inr h
  | cons kv l ih =>
    obtain ⟨k₀, v₀⟩ := kv
    rw [applyAll] at h
    rcases ih _ h with h' | h'
    · exact Or.inl (List.mem_cons.mpr (Or.inr h'))
    · by_cases hk : k = k₀
      · subst hk
        rw [recordGet_set_self] at h'
        exact Or.inl (List.mem_cons.mpr (Or.inl (by simp [Option.some.injEq] at h' ; simp [h'])))
      · rw [recordGet_set_ne _ _ hk] at h'
        exact Or.inr h'

/-! ### Data model (src/types.ts and the parsed OpenAPI document) -/

/-- `MethodMapping` from src/types.ts: an http path and method. -/
structure MethodMapping where
  path : String
  method : String
deriving DecidableEq

/-- One operation object of the parsed OpenAPI document.  `integrationUri`
is the value of its `x-amazon-apigateway-integration.uri` vendor extension
(the document's only hard precondition); `security` is the operation's
security-requirement list, each requirement mapping a scheme name to a list
of scopes. -/
structure Operation where
  integrationUri : String
  security : Option (List (String × List String))
deriving DecidableEq

/-- The `x-amazon-apigateway-authorizer` object produced by
`toAuthorizerSpec` (src/http-openapi.ts, lines 230-236). -/
structure ApiGatewayAuthorizer where
  type : String
  identitySource : String
  authorizerUri : String
  authorizerPayloadFormatVersion : String
  authorizerResultTtlInSeconds : Nat
deriving DecidableEq

/-- A security-scheme object of the document's components section.  `inLoc`
models the OpenAPI `in` field (a Lean keyword). -/
structure SecurityScheme where
  type : String
  name : String
  inLoc : String
  apigatewayAuthorizer : Option ApiGatewayAuthorizer
deriving DecidableEq

/-- The `components` section of the parsed document.  `schemas` stands for
the component entries the construct never touches. -/
structure Components where
  securitySchemes : List (String × SecurityScheme)
  schemas : List (String × String)
deriving DecidableEq

/-- The parsed OpenAPI document: a `paths` mapping (path → method →
operation) and a `components` mapping. -/
structure SpecDoc where
  paths : List (String × List (String × Operation))
  components : Components
deriving DecidableEq

/-- `HttpApiIntegrationProps` from src/types.ts.  `timeout` is in seconds
(the source default is `Duration.seconds(3)`); `layers` and `environment`
are opaque here. -/
structure HttpApiIntegrationProps where
  operationId : String
  handler : String
  runtime : String
  sourcePath : String
  logRetention : Option Nat
  timeout : Option Nat
  memorySize : Option Nat
deriving DecidableEq

/-- `CfnApi.CorsProperty` (aws-cdk-lib): the CORS configuration object that
`HttpApiProps.corsConfig` supplies verbatim. -/
structure CorsProperty where
  allowCredentials : Option Bool
  allowHeaders : List String
  allowMethods : List String
  allowOrigins : List String
deriving DecidableEq

/-- `HttpApiProps` from src/types.ts.  `acls` keeps only the web ACL's
`attrArn`, the single field the construct reads from it. -/
structure HttpApiProps where
  functionNamePrefix : String
  openApiSpec : String
  integrations : List HttpApiIntegrationProps
  customAuthorizerLambdaArn : Option String
  corsConfig : Option CorsProperty
  corsAllowAllOrigins : Option Bool
  acls : Option String
deriving DecidableEq

/-- The CDK stack environment the construct interpolates into ARNs. -/
structure Stack where
  partition : String
  region : String
  account : String
deriving DecidableEq

/-- The synthesized `lambda.Function` (one compute unit per integration),
src/http-openapi.ts lines 83-92. -/
structure LambdaFunction where
  functionName : String
  handler : String
  runtime : String
  sourcePath : String
  logRetention : Nat
  timeoutSeconds : Nat
  memorySize : Nat
deriving DecidableEq

/-- The produced `CfnApi` gateway resource (src/http-openapi.ts lines 58-62). -/
structure CfnApi where
  name : String
  corsConfiguration : Option CorsProperty
  protocolType : String
deriving DecidableEq

/-- The default `CfnStage` (src/http-openapi.ts lines 64-68). -/
structure CfnStage where
  stageName : String
  autoDeploy : Bool
deriving DecidableEq

/-- A synthesized `CfnIntegration` (src/http-openapi.ts lines 96-101).
`logicalId` is the construct id, standing in for the deploy-time
`attrIntegrationId` token. -/
structure CfnIntegration where
  logicalId : String
  integrationType : String
  payloadFormatVersion : String
  integrationUri : String
deriving DecidableEq

/-- A synthesized `CfnRoute` (src/http-openapi.ts lines 103-107). -/
structure CfnRoute where
  routeKey : String
  target : String
deriving DecidableEq

/-- A synthesized `lambda.CfnPermission` invoke grant. -/
structure CfnPermission where
  action : String
  principal : String
  functionName : String
  sourceArn : String
deriving DecidableEq

/-- A synthesized `CfnWebACLAssociation` (src/http-openapi.ts lines 71-74). -/
structure CfnWebACLAssociation where
  resourceArn : String
  webAclArn : String
deriving DecidableEq

/-! ### Translation of src/http-openapi.ts -/

def AUTHORIZER_KEY : String := "custom_authorizer"

/-- `buildMethodMappings` (src/http-openapi.ts lines 208-221): walk
`spec.paths` and record, for every method of every path, the operation's
`x-amazon-apigateway-integration.uri` mapped to its (path, method). -/
def buildMethodMappings (spec : SpecDoc) : List (String × MethodMapping) :=
  spec.paths.foldl
    (fun methods pp =>
      pp.2.foldl
        (fun methods mo =>
          recordSet methods mo.2.integrationUri (MethodMapping.mk pp.1 mo.1))
        methods)
    []

/-- The assignments `buildMethodMappings` performs, flattened into document
traversal order: one `(uri, (path, method))` pair per operation. -/
def flatPairsOf : List (String × List (String × Operation)) → List (String × MethodMapping)
  | [] => []
  | pp :: t =>
    pp.2.map (fun mo => (mo.2.integrationUri, MethodMapping.mk pp.1 mo.1)) ++ flatPairsOf t

def flatPairs (spec : SpecDoc) : List (String × MethodMapping) :=
  flatPairsOf spec.paths

theorem buildMethodMappings_eq_applyAll (spec : SpecDoc) :
    buildMethodMappings spec = applyAll [] (flatPairs spec) := by
  suffices h : ∀ (paths : List (String × List (String × Operation)))
      (acc : List (String × MethodMapping)),
      paths.foldl
        (fun methods pp =>
          pp.2.foldl
            (fun methods mo =>
              recordSet methods mo.2.integrationUri (MethodMapping.mk pp.1 mo.1))
            methods)
        acc = applyAll acc (flatPairsOf paths) by
    exact h spec.paths []
  intro paths
  induction paths with
  | nil => intro acc; simp [flatPairsOf, applyAll]
  | cons pp t ih =>
    intro acc
    rw [List.foldl_cons, flatPairsOf, applyAll_append, ← ih]
    congr 1
    generalize pp.2 = ops
    induction ops generalizing acc with
    | nil => simp [applyAll]
    | cons mo rest ih2 => simp [applyAll, ih2]

/-- `toAuthorizerSpec` (src/http-openapi.ts lines 223-238). -/
def toAuthorizerSpec (lambdaAuthorizerArn : String) (region : String) : SecurityScheme :=
  ⟨"apiKey", "Authorization", "header",
    some ⟨"request", "$request.header.Authorization",
      "arn:aws:apigateway:" ++ region ++ ":lambda:path/2015-03-31/functions/" ++
        lambdaAuthorizerArn ++ "/invocations",
      "2.0", 300⟩⟩

/-- The function ARN the CDK resolves `func.functionArn` to (a deploy-time
token, modelled by its resolved shape). -/
def functionArn (stack : Stack) (functionName : String) : String :=
  "arn:" ++ stack.partition ++ ":lambda:" ++ stack.region ++ ":" ++ stack.account ++
    ":function:" ++ functionName

/-- The API Gateway lambda-invocation URI interpolated at
src/http-openapi.ts line 100. -/
def lambdaInvocationUri (stack : Stack) (arn : String) : String :=
  "arn:" ++ stack.partition ++ ":apigateway:" ++ stack.region ++
    ":lambda:path/2015-03-31/functions/" ++ arn ++ "/invocations"

/-- `execute-api` ARN covering every stage, method and path (lines 72, 135). -/
def executeApiArnAll (stack : Stack) (apiId : String) : String :=
  "arn:" ++ stack.partition ++ ":execute-api:" ++ stack.region ++ ":" ++ stack.account ++
    ":" ++ apiId ++ "/*/*/*"

/-- `execute-api` ARN used for the per-function permissions (line 146). -/
def executeApiArnStages (stack : Stack) (apiId : String) : String :=
  "arn:" ++ stack.partition ++ ":execute-api:" ++ stack.region ++ ":" ++ stack.account ++
    ":" ++ apiId ++ "/*/*"

/-- Stand-in for the deploy-time `cfnApi.attrApiId` token. -/
def attrApiId (api : CfnApi) : String :=
  "token:ApiId:" ++ api.name

/-- The `lambda.Function` synthesized for one integration
(src/http-openapi.ts lines 82-92): handler, runtime and source settings are
taken from the integration, with `logRetention ?? 90`,
`timeout ?? Duration.seconds(3)` and `memorySize ?? 128`. -/
def mkFunction (pfx : String) (integration : HttpApiIntegrationProps) : LambdaFunction :=
  { functionName := pfx ++ "-" ++ integration.operationId
    handler := integration.handler
    runtime := integration.runtime
    sourcePath := integration.sourcePath
    logRetention := integration.logRetention.getD 90
    timeoutSeconds := integration.timeout.getD 3
    memorySize := integration.memorySize.getD 128 }

/-- The `CfnIntegration` synthesized for one bound operation
(src/http-openapi.ts lines 96-101). -/
def mkCfnIntegration (stack : Stack) (pfx : String) (integration : HttpApiIntegrationProps)
    (method : MethodMapping) : CfnIntegration :=
  { logicalId := "integration-" ++ (method.path.replace "/" "-") ++ "-" ++ method.method
    integrationType := "AWS_PROXY"
    payloadFormatVersion := "2.0"
    integrationUri :=
      lambdaInvocationUri stack (functionArn stack (pfx ++ "-" ++ integration.operationId)) }

/-- The `CfnRoute` synthesized for one bound operation
(src/http-openapi.ts lines 103-107). -/
def mkCfnRoute (intgr : CfnIntegration) (method : MethodMapping) : CfnRoute :=
  { routeKey := method.method.toUpper ++ " " ++ method.path
    target := "integrations/" ++ intgr.logicalId }

/-- In-place mutation `spec.paths[path][method].security = sec`
(src/http-openapi.ts lines 111-115). -/
def setSecurity (doc : SpecDoc) (p m : String) (sec : List (String × List String)) : SpecDoc :=
  { doc with
    paths := recordModify doc.paths p
      (fun po => recordModify po m (fun op => { op with security := some sec })) }

/-- Mutable state threaded through the integration loop of the constructor
(lines 77-118): the function and route accumulators and the document being
patched. -/
structure BindState where
  functions : List (String × LambdaFunction)
  routes : List CfnRoute
  cfnIntegrations : List CfnIntegration
  spec : SpecDoc
deriving DecidableEq

/-- One iteration of `props.integrations.forEach` (src/http-openapi.ts
lines 77-118): resolve the operation id in the method index, failing the
whole composition when absent; otherwise synthesize the compute unit, the
gateway integration and the route, and, when a custom authorizer is
configured, overwrite the matched operation node's security requirements. -/
def bindIntegration (stack : Stack) (pfx : String) (customAuthorizerLambdaArn : Option String)
    (mm : List (String × MethodMapping)) (st : BindState)
    (integration : HttpApiIntegrationProps) : Except String BindState :=
  match recordGet mm integration.operationId with
  | none =>
    Except.error ("There is no path in the Open API Spec matching " ++ integration.operationId)
  | some method =>
    let func := mkFunction pfx integration
    let intgr := mkCfnIntegration stack pfx integration method
    let route := mkCfnRoute intgr method
    Except.ok
      { functions := recordSet st.functions integration.operationId func
        routes := st.routes ++ [route]
        cfnIntegrations := st.cfnIntegrations ++ [intgr]
        spec :=
          if customAuthorizerLambdaArn.isSome then
            setSecurity st.spec method.path method.method [(AUTHORIZER_KEY, [])]
          else st.spec }

/-- `forEach` over a throwing callback: the first error aborts the loop. -/
def foldE {σ α : Type} (f : σ → α → Except String σ) : σ → List α → Except String σ
  | s, [] => Except.ok s
  | s, a :: l =>
    match f s a with
    | Except.error e => Except.error e
    | Except.ok s' => foldE f s' l

def initialBindState (spec : SpecDoc) : BindState :=
  { functions := [], routes := [], cfnIntegrations := [], spec := spec }

/-- The cross-cutting authorizer patch (src/http-openapi.ts lines 121-126):
assign a fresh empty object to `spec.components.securitySchemes`, then
insert the authorizer scheme under `AUTHORIZER_KEY`. -/
def patchSecuritySchemes (stack : Stack) (customAuthorizerLambdaArn : Option String)
    (doc : SpecDoc) : SpecDoc :=
  match customAuthorizerLambdaArn with
  | some arn =>
    { doc with
      components :=
        { doc.components with
          securitySchemes := recordSet [] AUTHORIZER_KEY (toAuthorizerSpec arn stack.region) } }
  | none => doc

/-- Permission synthesis (src/http-openapi.ts lines 128-149): one grant for
the custom authorizer when configured, then one grant per synthesized
function, keyed like `this.permissions`. -/
def buildPermissions (stack : Stack) (customAuthorizerLambdaArn : Option String)
    (apiId : String) (funcs : List (String × LambdaFunction)) : List (String × CfnPermission) :=
  let authPerms :=
    match customAuthorizerLambdaArn with
    | some arn =>
      recordSet [] AUTHORIZER_KEY
        { action := "lambda:InvokeFunction"
          principal := "apigateway.amazonaws.com"
          functionName := arn
          sourceArn := executeApiArnAll stack apiId }
    | none => []
  funcs.foldl
    (fun ps kv =>
      recordSet ps kv.1
        { action := "lambda:InvokeFunction"
          principal := "apigateway.amazonaws.com"
          functionName := kv.2.functionName
          sourceArn := executeApiArnStages stack apiId })
    authPerms

/-- Everything the `HttpOpenApi` instance exposes after a successful
construction. -/
structure CompositionResult where
  cfnApi : CfnApi
  apiStage : CfnStage
  functions : List (String × LambdaFunction)
  permissions : List (String × CfnPermission)
  routes : List CfnRoute
  cfnIntegrations : List CfnIntegration
  methodMappings : List (String × MethodMapping)
  spec : SpecDoc
  association : Option CfnWebACLAssociation
deriving DecidableEq

/-- Assembly of the construct's fields once the integration loop succeeded
(src/http-openapi.ts lines 56-149 outside the loop). -/
def assembleResult (stack : Stack) (props : HttpApiProps) (spec : SpecDoc)
    (st : BindState) : CompositionResult :=
  let cfnApi : CfnApi :=
    ⟨ props.functionNamePrefix ++ "-api", props.corsConfig, "HTTP"⟩
  { cfnApi := cfnApi
    apiStage := { stageName := "$default", autoDeploy := true }
    functions := st.functions
    permissions :=
      buildPermissions stack props.customAuthorizerLambdaArn (attrApiId cfnApi) st.functions
    routes := st.routes
    cfnIntegrations := st.cfnIntegrations
    methodMappings := buildMethodMappings spec
    spec := patchSecuritySchemes stack props.customAuthorizerLambdaArn st.spec
    association :=
      props.acls.map
        (fun aclArn => ⟨executeApiArnAll stack (attrApiId cfnApi), aclArn⟩) }

/-- The `HttpOpenApi` constructor (src/http-openapi.ts lines 46-150), with
the file read and YAML parse factored out: it receives the already-parsed
document.  The `forEach` over integrations either throws (aborting the
whole construction) or yields the final state from which every exposed
field is assembled. -/
def construct (stack : Stack) (props : HttpApiProps) (spec : SpecDoc) :
    Except String CompositionResult :=
  match
    foldE
      (bindIntegration stack ( props.functionNamePrefix) props.customAuthorizerLambdaArn
        (buildMethodMappings spec))
      (initialBindState spec) props.integrations
  with
  | Except.error e => Except.error e
  | Except.ok st => Except.ok (assembleResult stack props spec st)

/-- The dependency targets `enableCustomDomain` registers on the api
mapping (src/http-openapi.ts lines 194-198). -/
inductive DomainDependency where
  | cfnApi
  | apiStage
  | domainName
  | aRecord
  | aaaaRecord
deriving DecidableEq

/-- A DNS alias record (`ARecord` / `AaaaRecord`, lines 185-186). -/
structure DnsRecord where
  recordName : String
  zoneName : String
  recordType : String
deriving DecidableEq

/-- Everything `enableCustomDomain` synthesizes (src/http-openapi.ts lines
157-199). -/
structure CustomDomainAttachment where
  certificateArn : String
  domainName : String
  aRecord : DnsRecord
  aaaaRecord : DnsRecord
  apiMappingStage : String
  apiMappingDomainName : String
  apiMappingDependencies : List DomainDependency
deriving DecidableEq

/-- `enableCustomDomain` (src/http-openapi.ts lines 157-199): synthesize the
domain name bound to the certificate, both DNS alias records, and the api
mapping onto the default stage, registering the mapping's explicit
dependencies in source order. -/
def enableCustomDomain (apiStage : CfnStage) (customDomainName : String)
    (certificateArn : String) (zoneName : String) : CustomDomainAttachment :=
  { certificateArn := certificateArn
    domainName := customDomainName
    aRecord := { recordName := customDomainName, zoneName := zoneName, recordType := "A" }
    aaaaRecord := { recordName := customDomainName, zoneName := zoneName, recordType := "AAAA" }
    apiMappingStage := apiStage.stageName
    apiMappingDomainName := customDomainName
    apiMappingDependencies :=
      [DomainDependency.cfnApi, DomainDependency.apiStage, DomainDependency.domainName,
        DomainDependency.aRecord, DomainDependency.aaaaRecord] }

/-! ### Document access helpers and their lemmas -/

/-- `spec.paths[p][m]`: the operation node at a path and method. -/
def getOp (doc : SpecDoc) (p m : String) : Option Operation :=
  match recordGet doc.paths p with
  | none => none
  | some po => recordGet po m

/-- The security-requirement list of the operation at (p, m). -/
def secAt (doc : SpecDoc) (p m : String) : Option (Option (List (String × List String))) :=
  (getOp doc p m).map (fun op => op.security)

/-- The invocation-target (`x-amazon-apigateway-integration.uri`) field of
the operation at (p, m). -/
def uriAt (doc : SpecDoc) (p m : String) : Option String :=
  (getOp doc p m).map (fun op => op.integrationUri)

theorem getOp_setSecurity_self (doc : SpecDoc) (p m : String)
    (sec : List (String × List String)) :
    getOp (setSecurity doc p m sec) p m =
      (getOp doc p m).map (fun op => { op with security := some sec }) := by
  unfold getOp setSecurity
  rw [recordGet_modify_self]
  cases recordGet doc.paths p with
  | none => simp
  | some po => simp [recordGet_modify_self]

theorem getOp_setSecurity_ne_path (doc : SpecDoc) {p' p : String} (m' m : String)
    (sec : List (String × List String)) (hp : ¬ p' = p) :
    getOp (setSecurity doc p m sec) p' m' = getOp doc p' m' := by
  unfold getOp setSecurity
  rw [recordGet_modify_ne _ _ hp]

theorem getOp_setSecurity_ne_method (doc : SpecDoc) (p' p : String) {m' m : String}
    (sec : List (String × List String)) (hm : ¬ m' = m) :
    getOp (setSecurity doc p m sec) p' m' = getOp doc p' m' := by
  by_cases hp : p' = p
  · subst hp
    unfold getOp setSecurity
    rw [recordGet_modify_self]
    cases recordGet doc.paths p' with
    | none => simp
    | some po => simp [recordGet_modify_ne _ _ hm]
  · exact getOp_setSecurity_ne_path doc m' m sec hp

theorem uriAt_setSecurity (doc : SpecDoc) (p' m' p m : String)
    (sec : List (String × List String)) :
    uriAt (setSecurity doc p m sec) p' m' = uriAt doc p' m' := by
  by_cases hp : p' = p
  · by_cases hm : m' = m
    · subst hp; subst hm
      unfold uriAt
      rw [getOp_setSecurity_self]
      cases getOp doc p' m' <;> simp
    · unfold uriAt
      rw [getOp_setSecurity_ne_method doc p' p sec hm]
  · unfold uriAt
    rw [getOp_setSecurity_ne_path doc m' m sec hp]

theorem isSome_getOp_setSecurity (doc : SpecDoc) (p' m' p m : String)
    (sec : List (String × List String)) :
    (getOp (setSecurity doc p m sec) p' m').isSome = (getOp doc p' m').isSome := by
  by_cases hp : p' = p
  · by_cases hm : m' = m
    · subst hp; subst hm
      rw [getOp_setSecurity_self]
      cases getOp doc p' m' <;> simp
    · rw [getOp_setSecurity_ne_method doc p' p sec hm]
  · rw [getOp_setSecurity_ne_path doc m' m sec hp]

theorem secAt_setSecurity_self (doc : SpecDoc) (p m : String)
    (sec : List (String × List String)) (h : (getOp doc p m).isSome = true) :
    secAt (setSecurity doc p m sec) p m = some (some sec) := by
  unfold secAt
  rw [getOp_setSecurity_self]
  cases hop : getOp doc p m with
  | none => rw [hop] at h; simp at h
  | some op => simp

theorem getOp_patchSecuritySchemes (stack : Stack) (auth : Option String) (doc : SpecDoc)
    (p m : String) : getOp (patchSecuritySchemes stack auth doc) p m = getOp doc p m := by
  cases auth <;> rfl

theorem uriAt_patchSecuritySchemes (stack : Stack) (auth : Option String) (doc : SpecDoc)
    (p m : String) : uriAt (patchSecuritySchemes stack auth doc) p m = uriAt doc p m := by
  unfold uriAt
  rw [getOp_patchSecuritySchemes]

theorem secAt_patchSecuritySchemes (stack : Stack) (auth : Option String) (doc : SpecDoc)
    (p m : String) : secAt (patchSecuritySchemes stack auth doc) p m = secAt doc p m := by
  unfold secAt
  rw [getOp_patchSecuritySchemes]

theorem securitySchemes_patchSecuritySchemes (stack : Stack) (arn : String) (doc : SpecDoc) :
    (patchSecuritySchemes stack (some arn) doc).components.securitySchemes =
      [(AUTHORIZER_KEY, toAuthorizerSpec arn stack.region)] := rfl

/-! ### Membership facts about the method index -/

theorem mem_flatPairsOf {paths : List (String × List (String × Operation))}
    {pp : String × List (String × Operation)} {mo : String × Operation}
    (hpp : pp ∈ paths) (hmo : mo ∈ pp.2) :
    (mo.2.integrationUri, MethodMapping.mk pp.1 mo.1) ∈ flatPairsOf paths := by
  induction paths with
  | nil => simp at hpp
  | cons hd t ih =>
    rw [flatPairsOf]
    rcases List.mem_cons.mp hpp with h | h
    · subst h
      exact List.mem_append.mpr (Or.inl (List.mem_map.mpr ⟨mo, hmo, rfl⟩))
    · exact List.mem_append.mpr (Or.inr (ih h))

theorem flatPairsOf_mem {paths : List (String × List (String × Operation))}
    {u : String} {mp : MethodMapping} (h : (u, mp) ∈ flatPairsOf paths) :
    ∃ pp ∈ paths, ∃ mo ∈ pp.2,
      u = mo.2.integrationUri ∧ mp = MethodMapping.mk pp.1 mo.1 := by
  induction paths with
  | nil => simp [flatPairsOf] at h
  | cons hd t ih =>
    rw [flatPairsOf] at h
    rcases List.mem_append.mp h with h' | h'
    · obtain ⟨mo, hmo, heq⟩ := List.mem_map.mp h'
      obtain ⟨h1, h2⟩ := Prod.mk.injEq .. ▸ heq
      exact ⟨hd, List.mem_cons_self hd t, mo, hmo, h1.symm, h2.symm⟩
    · obtain ⟨pp, hpp, mo, hmo, h1, h2⟩ := ih h'
      exact ⟨pp, List.mem_cons.mpr (Or.inr hpp), mo, hmo, h1, h2⟩

/-- Every entry of the method index names an operation node that really
exists in the document (needed because the loop later dereferences
`spec.paths[method.path][method.method]`). -/
theorem getOp_of_methodMapping {spec : SpecDoc} {u : String} {mp : MethodMapping}
    (hpaths : (spec.paths.map Prod.fst).Nodup)
    (hmeths : ∀ pp ∈ spec.paths, (pp.2.map Prod.fst).Nodup)
    (h : recordGet (buildMethodMappings spec) u = some mp) :
    ∃ op, getOp spec mp.path mp.method = some op ∧ op.integrationUri = u := by
  rw [buildMethodMappings_eq_applyAll] at h
  rcases recordGet_applyAll_mem_or _ _ h with hmem | hacc
  · obtain ⟨pp, hpp, mo, hmo, h1, h2⟩ := flatPairsOf_mem hmem
    refine ⟨mo.2, ?_, h1.symm⟩
    subst h2
    unfold getOp
    rw [show (MethodMapping.mk pp.1 mo.1).path = pp.1 from rfl,
      show (MethodMapping.mk pp.1 mo.1).method = mo.1 from rfl]
    have h3 : recordGet spec.paths pp.1 = some pp.2 := by
      have := recordGet_of_mem_nodup (r := spec.paths) (k := pp.1) (v := pp.2) ?_ hpaths
      · exact this
      · exact (Prod.mk.eta (p := pp)) ▸ hpp
    rw [h3]
    exact recordGet_of_mem_nodup ((Prod.mk.eta (p := mo)) ▸ hmo) (hmeths pp hpp)
  · simp [recordGet] at hacc

/-! ### Generic lemmas about the integration loop -/

theorem foldE_preserve {σ α : Type} (f : σ → α → Except String σ) (P : σ → Prop)
    (l : List α) :
    (∀ t a t', a ∈ l → f t a = Except.ok t' → P t → P t') →
    ∀ s s', foldE f s l = Except.ok s' → P s → P s' := by
  induction l with
  | nil =>
    intro _ s s' hfold hP
    rw [foldE] at hfold
    cases hfold
    exact hP
  | cons a t ih =>
    intro hstep s s' hfold hP
    rw [foldE] at hfold
    cases h : f s a with
    | error e => rw [h] at hfold; cases hfold
    | ok s₁ =>
      rw [h] at hfold
      exact ih (fun t a' t' ha' => hstep t a' t' (List.mem_cons.mpr (Or.inr ha'))) s₁ s' hfold
        (hstep s a s₁ (List.mem_cons_self a t) h hP)

theorem foldE_establish {σ α : Type} (f : σ → α → Except String σ) (Q P : σ → Prop)
    (l : List α) (a₀ : α) :
    a₀ ∈ l →
    (∀ t a t', a ∈ l → f t a = Except.ok t' → Q t → Q t') →
    (∀ t t', f t a₀ = Except.ok t' → Q t → P t') →
    (∀ t a t', a ∈ l → f t a = Except.ok t' → P t → P t') →
    ∀ s s', foldE f s l = Except.ok s' → Q s → P s' := by
  induction l with
  | nil => intro h; simp at h
  | cons a t ih =>
    intro hmem hQ hE hP s s' hfold hQs
    rw [foldE] at hfold
    cases h : f s a with
    | error e => rw [h] at hfold; cases hfold
    | ok s₁ =>
      rw [h] at hfold
      rcases List.mem_cons.mp hmem with heq | hmem'
      · subst heq
        exact foldE_preserve f P t
          (fun t' a' t'' ha' => hP t' a' t'' (List.mem_cons.mpr (Or.inr ha'))) s₁ s' hfold
          (hE s s₁ h hQs)
      · exact ih hmem' (fun t' a' t'' ha' => hQ t' a' t'' (List.mem_cons.mpr (Or.inr ha')))
          hE (fun t' a' t'' ha' => hP t' a' t'' (List.mem_cons.mpr (Or.inr ha'))) s₁ s' hfold
          (hQ s a s₁ (List.mem_cons_self a t) h hQs)

theorem foldE_error_of_mem {σ α : Type} (f : σ → α → Except String σ)
    (l : List α) (a₀ : α) :
    a₀ ∈ l → (∀ t, ∃ e, f t a₀ = Except.error e) →
    ∀ s, ∃ e, foldE f s l = Except.error e := by
  induction l with
  | nil => intro h; simp at h
  | cons a t ih =>
    intro hmem herr s
    rcases List.mem_cons.mp hmem with heq | hmem'
    · subst heq
      obtain ⟨e, he⟩ := herr s
      exact ⟨e, by rw [foldE, he]⟩
    · cases h : f s a with
      | error e => exact ⟨e, by rw [foldE, h]⟩
      | ok s₁ =>
        obtain ⟨e, he⟩ := ih hmem' herr s₁
        exact ⟨e, by rw [foldE, h]; exact he⟩

/-! ### Inversion lemmas for one loop iteration and for the constructor -/

theorem bindIntegration_ok {stack : Stack} {pfx : String} {auth : Option String}
    {mm : List (String × MethodMapping)} {st : BindState}
    {i : HttpApiIntegrationProps} {st' : BindState}
    (h : bindIntegration stack pfx auth mm st i = Except.ok st') :
    ∃ mp, recordGet mm i.operationId = some mp ∧
      st' = { functions := recordSet st.functions i.operationId (mkFunction pfx i)
              routes := st.routes ++ [mkCfnRoute (mkCfnIntegration stack pfx i mp) mp]
              cfnIntegrations := st.cfnIntegrations ++ [mkCfnIntegration stack pfx i mp]
              spec :=
                if auth.isSome then
                  setSecurity st.spec mp.path mp.method [(AUTHORIZER_KEY, [])]
                else st.spec } := by
  unfold bindIntegration at h
  cases hmm : recordGet mm i.operationId with
  | none => rw [hmm] at h; cases h
  | some mp =>
    rw [hmm] at h
    cases h
    exact ⟨mp, rfl, rfl⟩

theorem bindIntegration_error_of_none {stack : Stack} {pfx : String} {auth : Option String}
    {mm : List (String × MethodMapping)} {i : HttpApiIntegrationProps}
    (h : recordGet mm i.operationId = none) :
    ∀ st, ∃ e, bindIntegration stack pfx auth mm st i = Except.error e := by
  intro st
  refine ⟨"There is no path in the Open API Spec matching " ++ i.operationId, ?_⟩
  unfold bindIntegration
  rw [h]

theorem construct_ok_iff {stack : Stack} {props : HttpApiProps} {spec : SpecDoc}
    {r : CompositionResult} :
    construct stack props spec = Except.ok r ↔
      ∃ st,
        foldE
          (bindIntegration stack ( props.functionNamePrefix) props.customAuthorizerLambdaArn
            (buildMethodMappings spec))
          (initialBindState spec) props.integrations = Except.ok st ∧
        r = assembleResult stack props spec st := by
  unfold construct
  cases h : foldE
      (bindIntegration stack ( props.functionNamePrefix) props.customAuthorizerLambdaArn
        (buildMethodMappings spec))
      (initialBindState spec) props.integrations with
  | error e =>
    constructor
    · intro h'; cases h'
    · rintro ⟨st, hst, -⟩; cases hst
  | ok st =>
    constructor
    · intro h'
      cases h'
      exact ⟨st, rfl, rfl⟩
    · rintro ⟨st', hst, rfl⟩
      cases hst
      rfl

/-! ### Concrete fixtures (the end-to-end scenario of the specification) -/

def exStack : Stack := ⟨"aws", "eu-west-1", "123456789012"⟩

def opListItems : Operation := ⟨"listItems", none⟩

def opCreateItem : Operation := ⟨"createItem", none⟩

def exDoc : SpecDoc :=
  ⟨[("/items", [("get", opListItems), ("post", opCreateItem)])], ⟨[], []⟩⟩

def exIntegration (opId : String) : HttpApiIntegrationProps :=
  ⟨opId, "api." ++ opId, "nodejs16.x", "./handlers", none, none, none⟩

def exProps : HttpApiProps :=
  ⟨"svc", "./openapi.yml", [exIntegration "listItems", exIntegration "createItem"],
    none, none, none, none⟩

def emptyResult : CompositionResult :=
  ⟨⟨"", none, "HTTP"⟩, ⟨"$default", true⟩, [], [], [], [], [], ⟨[], ⟨[], []⟩⟩, none⟩

/-- Projects the success value of an evaluated construction. -/
def getOkResult : Except String CompositionResult → CompositionResult
  | Except.ok r => r
  | Except.error _ => emptyResult

def cr1 : CompositionResult := getOkResult (construct exStack exProps exDoc)

/-! ### C4 -/

/-- C4: for every specification document in which each operation's
invocation-target (vendor-extension URI) field is unique, the built method
index has exactly one entry per (path, method) pair of the document, every
entry originates from an operation of the document, and looking up any such
identifier returns exactly the (path, method) of the operation that
declared it. -/
theorem C4_method_index_unique (spec : SpecDoc)
    (huris : ((flatPairs spec).map Prod.fst).Nodup) :
    (buildMethodMappings spec).length = (flatPairs spec).length ∧
    (∀ u mp, recordGet (buildMethodMappings spec) u = some mp → (u, mp) ∈ flatPairs spec) ∧
    ∀ pp ∈ spec.paths, ∀ mo ∈ pp.2,
      recordGet (buildMethodMappings spec) mo.2.integrationUri =
        some (MethodMapping.mk pp.1 mo.1) := by
  refine ⟨?_, ?_, ?_⟩
  · rw [buildMethodMappings_eq_applyAll]
    have h := length_applyAll (flatPairs spec) [] huris (fun k _ => rfl)
    simpa using h
  · intro u mp h
    rw [buildMethodMappings_eq_applyAll] at h
    rcases recordGet_applyAll_mem_or _ _ h with hmem | hacc
    · exact hmem
    · simp [recordGet] at hacc
  · intro pp hpp mo hmo
    rw [buildMethodMappings_eq_applyAll]
    exact recordGet_applyAll_of_mem_nodup _ _ huris (mem_flatPairsOf hpp hmo)

theorem C4_witness :
    (buildMethodMappings exDoc).length = (flatPairs exDoc).length ∧
    recordGet (buildMethodMappings exDoc) "listItems" = some (MethodMapping.mk "/items" "get") ∧
    recordGet (buildMethodMappings exDoc) "createItem" =
      some (MethodMapping.mk "/items" "post") := by
  have h := C4_method_index_unique exDoc (by decide)
  refine ⟨h.1, ?_, ?_⟩
  · exact h.2.2 ("/items", [("get", opListItems), ("post", opCreateItem)]) (by decide)
      ("get", opListItems) (by decide)
  · exact h.2.2 ("/items", [("get", opListItems), ("post", opCreateItem)]) (by decide)
      ("post", opCreateItem) (by decide)

/-! ### C5 -/

/-- C5: if two operations declare the same invocation-target identifier,
the method index maps it to the (path, method) of whichever operation
appears later in document traversal order (last write wins); no error is
raised, the index is still produced. -/
theorem C5_last_write_wins (spec : SpecDoc) (l₁ l₂ l₃ : List (String × MethodMapping))
    (u : String) (mm₁ mm₂ : MethodMapping)
    (hsplit : flatPairs spec = l₁ ++ (u, mm₁) :: (l₂ ++ (u, mm₂) :: l₃))
    (hlast : ¬ u ∈ l₃.map Prod.fst) :
    recordGet (buildMethodMappings spec) u = some mm₂ := by
  rw [buildMethodMappings_eq_applyAll, hsplit,
    show l₁ ++ (u, mm₁) :: (l₂ ++ (u, mm₂) :: l₃)
        = (l₁ ++ (u, mm₁) :: l₂) ++ (u, mm₂) :: l₃ by simp]
  exact recordGet_applyAll_last _ _ _ _ hlast

def exDoc5 : SpecDoc :=
  ⟨[("/a", [("get", ⟨"dup", none⟩)]), ("/b", [("get", ⟨"dup", none⟩)])], ⟨[], []⟩⟩

theorem C5_witness :
    recordGet (buildMethodMappings exDoc5) "dup" = some (MethodMapping.mk "/b" "get") :=
  C5_last_write_wins exDoc5 [] [] [] "dup" (MethodMapping.mk "/a" "get")
    (MethodMapping.mk "/b" "get") (by decide) (by decide)

/-! ### C3 -/

/-- C3: if any integration's operation id has no entry in the method index,
the whole construction aborts with an error: no composition result (and in
particular no compute unit, permission, route or patched document) is
produced as output. -/
theorem C3_failfast (stack : Stack) (props : HttpApiProps) (spec : SpecDoc)
    (i : HttpApiIntegrationProps) (hi : i ∈ props.integrations)
    (hmiss : recordGet (buildMethodMappings spec) i.operationId = none) :
    ∃ e, construct stack props spec = Except.error e := by
  obtain ⟨e, he⟩ :=
    foldE_error_of_mem
      (bindIntegration stack ( props.functionNamePrefix) props.customAuthorizerLambdaArn
        (buildMethodMappings spec))
      props.integrations i hi (bindIntegration_error_of_none hmiss) (initialBindState spec)
  refine ⟨e, ?_⟩
  unfold construct
  rw [he]

def exPropsBad : HttpApiProps :=
  ⟨"svc", "./openapi.yml", [exIntegration "listItems", exIntegration "missingOp"],
    none, none, none, none⟩

theorem C3_witness :
    (exIntegration "missingOp") ∈ exPropsBad.integrations ∧
    recordGet (buildMethodMappings exDoc) "missingOp" = none ∧
    ∃ e, construct exStack exPropsBad exDoc = Except.error e :=
  ⟨by decide, by decide,
    C3_failfast exStack exPropsBad exDoc (exIntegration "missingOp") (by decide) (by decide)⟩

/-! ### C8 -/

/-- C8: the custom-domain attachment declares the api-mapping resource as
explicitly dependent on all four of the domain-name resource, the default
stage, the A record and the AAAA record. -/
theorem C8_domain_dependencies (apiStage : CfnStage) (d c z : String) :
    DomainDependency.domainName ∈ (enableCustomDomain apiStage d c z).apiMappingDependencies ∧
    DomainDependency.apiStage ∈ (enableCustomDomain apiStage d c z).apiMappingDependencies ∧
    DomainDependency.aRecord ∈ (enableCustomDomain apiStage d c z).apiMappingDependencies ∧
    DomainDependency.aaaaRecord ∈ (enableCustomDomain apiStage d c z).apiMappingDependencies := by
  simp [enableCustomDomain]

/-! ### C9 (modelled from the spec) -/

/-- Modelled from the spec: the execution-role resolution step is not part
of the sources under src/ (only the HTTP-API construct and its prop types
are).  Section 6 of the specification states that composition aborts when
"a path value fails a bare structural check (must start with `/`) when
resolving an execution-role identifier". -/
def startsWithSlash (path : String) : Bool :=
  path.data.head? = some '/'

/-- Modelled from the spec: abort unless the path value starts with `/`. -/
def resolveExecutionRolePath (path : String) : Except String String :=
  if startsWithSlash path then Except.ok path
  else Except.error ("path must start with /, got " ++ path)

/-- Modelled from the spec: a composition that resolves an execution-role
identifier for a path value before composing; a failed structural check
aborts the whole composition with no output. -/
def constructWithExecutionRole (stack : Stack) (props : HttpApiProps) (spec : SpecDoc)
    (rolePath : String) : Except String CompositionResult :=
  match resolveExecutionRolePath rolePath with
  | Except.error e => Except.error e
  | Except.ok _ => construct stack props spec

/-- C9: composition aborts immediately with no output whenever the path
value checked while resolving an execution-role identifier does not start
with '/'. -/
theorem C9_role_path_check (stack : Stack) (props : HttpApiProps) (spec : SpecDoc)
    (rolePath : String) (h : startsWithSlash rolePath = false) :
    ∃ e, constructWithExecutionRole stack props spec rolePath = Except.error e := by
  refine ⟨"path must start with /, got " ++ rolePath, ?_⟩
  unfold constructWithExecutionRole resolveExecutionRolePath
  rw [h]
  simp

theorem C9_witness :
    (startsWithSlash "role-path" = false) ∧
    ∃ e, constructWithExecutionRole exStack exProps exDoc "role-path" = Except.error e :=
  ⟨by decide, C9_role_path_check exStack exProps exDoc "role-path" (by decide)⟩

/-! ### C2 -/

def exProps2 : HttpApiProps :=
  ⟨"svc", "./openapi.yml", [exIntegration "listItems", exIntegration "createItem"],
    none, none, some true, none⟩

def cr2 : CompositionResult := getOkResult (construct exStack exProps2 exDoc)

/-- C2 (code bug): with `corsAllowAllOrigins: true` and no explicit
`corsConfig`, the produced gateway resource carries no CORS configuration at
all — the constructor passes `props.corsConfig` through verbatim (line 60 of
src/http-openapi.ts) and never reads `corsAllowAllOrigins`, contradicting
the documented purpose of that flag ("set to true to enable cors for all
origins", src/types.ts line 58). -/
theorem C2_cors_flag_ignored :
    construct exStack exProps2 exDoc = Except.ok cr2 ∧
    exProps2.corsAllowAllOrigins = some true ∧
    exProps2.corsConfig = none ∧
    cr2.cfnApi.corsConfiguration = none :=
  ⟨rfl, rfl, rfl, rfl⟩

/-! ### C7 -/

/-- C7: for every integration, the synthesized compute unit stored under its
operation id uses the supplied timeout/memory/log-retention values when
present and defaults to 3 seconds, 128 and 90 when unspecified. -/
theorem C7_function_defaults (stack : Stack) (props : HttpApiProps) (spec : SpecDoc)
    (r : CompositionResult) (i : HttpApiIntegrationProps)
    (hnodup : (props.integrations.map (fun j => j.operationId)).Nodup)
    (hi : i ∈ props.integrations)
    (hok : construct stack props spec = Except.ok r) :
    recordGet r.functions i.operationId = some (mkFunction ( props.functionNamePrefix) i) ∧
    (i.timeout = none → (mkFunction ( props.functionNamePrefix) i).timeoutSeconds = 3) ∧
    (∀ t, i.timeout = some t → (mkFunction ( props.functionNamePrefix) i).timeoutSeconds = t) ∧
    (i.memorySize = none → (mkFunction ( props.functionNamePrefix) i).memorySize = 128) ∧
    (∀ m, i.memorySize = some m → (mkFunction ( props.functionNamePrefix) i).memorySize = m) ∧
    (i.logRetention = none → (mkFunction ( props.functionNamePrefix) i).logRetention = 90) ∧
    (∀ n, i.logRetention = some n → (mkFunction ( props.functionNamePrefix) i).logRetention = n) := by
  obtain ⟨st, hfold, rfl⟩ := construct_ok_iff.mp hok
  refine ⟨?_, ?_, ?_, ?_, ?_, ?_, ?_⟩
  · show recordGet st.functions i.operationId = _
    refine foldE_establish _ (fun _ => True)
      (fun t => recordGet t.functions i.operationId =
        some (mkFunction ( props.functionNamePrefix) i))
      props.integrations i hi (fun _ _ _ _ _ _ => trivial) ?hE ?hP
      (initialBindState spec) st hfold trivial
    case hE =>
      rintro t t' hbind -
      obtain ⟨mp, -, rfl⟩ := bindIntegration_ok hbind
      exact recordGet_set_self _ _ _
    case hP =>
      intro t a t' ha hbind hPt
      obtain ⟨mp, -, rfl⟩ := bindIntegration_ok hbind
      by_cases hop : a.operationId = i.operationId
      · have : a = i :=
          List.inj_on_of_nodup_map hnodup ha hi hop
        subst this
        exact recordGet_set_self _ _ _
      · show recordGet (recordSet t.functions a.operationId _) i.operationId = _
        rw [recordGet_set_ne _ _ (fun h => hop h.symm)]
        exact hPt
  · intro h; simp [mkFunction, h]
  · intro t h; simp [mkFunction, h]
  · intro h; simp [mkFunction, h]
  · intro m h; simp [mkFunction, h]
  · intro h; simp [mkFunction, h]
  · intro n h; simp [mkFunction, h]

def exIntegrationOpts : HttpApiIntegrationProps :=
  ⟨"createItem", "api.createItem", "nodejs16.x", "./handlers", some 30, some 10, some 512⟩

def exProps7 : HttpApiProps :=
  ⟨"svc", "./openapi.yml", [exIntegration "listItems", exIntegrationOpts],
    none, none, none, none⟩

def cr7 : CompositionResult := getOkResult (construct exStack exProps7 exDoc)

theorem C7_witness :
    recordGet cr7.functions "listItems" = some (mkFunction "svc" (exIntegration "listItems")) ∧
    (mkFunction "svc" (exIntegration "listItems")).timeoutSeconds = 3 ∧
    (mkFunction "svc" (exIntegration "listItems")).memorySize = 128 ∧
    (mkFunction "svc" (exIntegration "listItems")).logRetention = 90 ∧
    (mkFunction "svc" exIntegrationOpts).timeoutSeconds = 10 ∧
    (mkFunction "svc" exIntegrationOpts).memorySize = 512 ∧
    (mkFunction "svc" exIntegrationOpts).logRetention = 30 := by
  have h1 := C7_function_defaults exStack exProps7 exDoc cr7 (exIntegration "listItems")
    (by decide) (by decide) rfl
  have h2 := C7_function_defaults exStack exProps7 exDoc cr7 exIntegrationOpts
    (by decide) (by decide) rfl
  exact ⟨h1.1, h1.2.1 rfl, h1.2.2.2.1 rfl, h1.2.2.2.2.2.1 rfl,
    h2.2.2.1 10 rfl, h2.2.2.2.2.1 512 rfl, h2.2.2.2.2.2.2 30 rfl⟩


/-! ### C6 and C10 -/

theorem secAt_setSecurity_ne_path (doc : SpecDoc) {p' p : String} (m' m : String)
    (sec : List (String × List String)) (hp : ¬ p' = p) :
    secAt (setSecurity doc p m sec) p' m' = secAt doc p' m' := by
  unfold secAt
  rw [getOp_setSecurity_ne_path doc m' m sec hp]

theorem secAt_setSecurity_ne_method (doc : SpecDoc) (p' p : String) {m' m : String}
    (sec : List (String × List String)) (hm : ¬ m' = m) :
    secAt (setSecurity doc p m sec) p' m' = secAt doc p' m' := by
  unfold secAt
  rw [getOp_setSecurity_ne_method doc p' p sec hm]

theorem assembleResult_spec (stack : Stack) (props : HttpApiProps) (spec : SpecDoc)
    (st : BindState) :
    (assembleResult stack props spec st).spec =
      patchSecuritySchemes stack props.customAuthorizerLambdaArn st.spec := rfl

/-- After a successful construction with a custom authorizer, the patched
document's securitySchemes mapping is exactly the singleton authorizer
entry. -/
theorem construct_ok_securitySchemes {stack : Stack} {props : HttpApiProps} {spec : SpecDoc}
    {arn : String} {r : CompositionResult}
    (harn : props.customAuthorizerLambdaArn = some arn)
    (hok : construct stack props spec = Except.ok r) :
    r.spec.components.securitySchemes = [(AUTHORIZER_KEY, toAuthorizerSpec arn stack.region)] := by
  obtain ⟨st, -, rfl⟩ := construct_ok_iff.mp hok
  rw [assembleResult_spec, harn]
  exact securitySchemes_patchSecuritySchemes stack arn st.spec

/-- The security-requirement list every bound operation node ends with when
an authorizer is configured (src/http-openapi.ts lines 111-115). -/
def authorizerRequirement : List (String × List String) := [(AUTHORIZER_KEY, [])]

/-- The document produced by one loop iteration: the matched operation's
security list is overwritten exactly when an authorizer is configured. -/
def bindSpec (auth : Option String) (doc : SpecDoc) (mp : MethodMapping) : SpecDoc :=
  if auth.isSome then setSecurity doc mp.path mp.method authorizerRequirement else doc

/-- Projection form of `bindIntegration_ok`, with the patched document
named via `bindSpec`. -/
theorem bindIntegration_ok_proj {stack : Stack} {pfx : String} {auth : Option String}
    {mm : List (String × MethodMapping)} {st : BindState}
    {i : HttpApiIntegrationProps} {st' : BindState}
    (h : bindIntegration stack pfx auth mm st i = Except.ok st') :
    ∃ mp, recordGet mm i.operationId = some mp ∧
      st'.spec = bindSpec auth st.spec mp ∧
      st'.functions = recordSet st.functions i.operationId (mkFunction pfx i) ∧
      st'.routes = st.routes ++ [mkCfnRoute (mkCfnIntegration stack pfx i mp) mp] ∧
      st'.cfnIntegrations = st.cfnIntegrations ++ [mkCfnIntegration stack pfx i mp] := by
  obtain ⟨mp, hmp, rfl⟩ := bindIntegration_ok h
  exact ⟨mp, hmp, rfl, rfl, rfl, rfl⟩

theorem isSome_getOp_bindSpec (auth : Option String) (doc : SpecDoc) (mp : MethodMapping)
    (p m : String) : (getOp (bindSpec auth doc mp) p m).isSome = (getOp doc p m).isSome := by
  unfold bindSpec
  cases hs : auth.isSome <;> simp [isSome_getOp_setSecurity]

theorem uriAt_bindSpec (auth : Option String) (doc : SpecDoc) (mp : MethodMapping)
    (p m : String) : uriAt (bindSpec auth doc mp) p m = uriAt doc p m := by
  unfold bindSpec
  cases hs : auth.isSome <;> simp [uriAt_setSecurity]

theorem secAt_bindSpec_self (auth : Option String) (doc : SpecDoc) (mp : MethodMapping)
    (hauth : auth.isSome = true) (h : (getOp doc mp.path mp.method).isSome = true) :
    secAt (bindSpec auth doc mp) mp.path mp.method = some (some authorizerRequirement) := by
  unfold bindSpec
  rw [hauth]
  simp only [if_true]
  exact secAt_setSecurity_self doc mp.path mp.method authorizerRequirement h

theorem secAt_bindSpec_preserve (auth : Option String) (doc : SpecDoc)
    (mp₂ : MethodMapping) (p m : String)
    (hPt : secAt doc p m = some (some authorizerRequirement)) :
    secAt (bindSpec auth doc mp₂) p m = some (some authorizerRequirement) := by
  unfold bindSpec
  cases hs : auth.isSome
  · simp only [if_false, Bool.false_eq_true, ite_false]
    exact hPt
  · simp only [if_true, ite_true]
    have hQt : (getOp doc p m).isSome = true := by
      unfold secAt at hPt
      cases hop : getOp doc p m with
      | none => rw [hop] at hPt; simp at hPt
      | some op => rfl
    by_cases hpp : p = mp₂.path
    · by_cases hmm2 : m = mp₂.method
      · rw [← hpp, ← hmm2]
        exact secAt_setSecurity_self doc p m authorizerRequirement hQt
      · rw [secAt_setSecurity_ne_method doc p mp₂.path authorizerRequirement hmm2]
        exact hPt
    · rw [secAt_setSecurity_ne_path doc m mp₂.method authorizerRequirement hpp]
      exact hPt

/-- C6: with a custom authorizer configured, after a successful
construction every bound operation's node carries exactly the one security
requirement naming the authorizer key, and the document's components
section contains exactly one authorizer scheme definition — a request-based
authorizer reading the request's Authorization header, cached for 300
seconds, whose URI embeds the configured ARN — regardless of how many
operations are bound. -/
theorem C6_authorizer_patch (stack : Stack) (props : HttpApiProps) (spec : SpecDoc)
    (arn : String) (r : CompositionResult)
    (harn : props.customAuthorizerLambdaArn = some arn)
    (hpaths : (spec.paths.map Prod.fst).Nodup)
    (hmeths : ∀ pp ∈ spec.paths, (pp.2.map Prod.fst).Nodup)
    (hok : construct stack props spec = Except.ok r) :
    r.spec.components.securitySchemes = [(AUTHORIZER_KEY, toAuthorizerSpec arn stack.region)] ∧
    (toAuthorizerSpec arn stack.region).apigatewayAuthorizer =
      some ⟨"request", "$request.header.Authorization",
        "arn:aws:apigateway:" ++ stack.region ++ ":lambda:path/2015-03-31/functions/" ++
          arn ++ "/invocations", "2.0", 300⟩ ∧
    ∀ i ∈ props.integrations, ∀ mp,
      recordGet (buildMethodMappings spec) i.operationId = some mp →
      secAt r.spec mp.path mp.method = some (some authorizerRequirement) := by
  refine ⟨construct_ok_securitySchemes harn hok, rfl, ?_⟩
  intro i hi mp hmp
  obtain ⟨st, hfold, rfl⟩ := construct_ok_iff.mp hok
  rw [assembleResult_spec, secAt_patchSecuritySchemes]
  have hauth : props.customAuthorizerLambdaArn.isSome = true := by rw [harn]; rfl
  refine foldE_establish _
    (fun t => (getOp t.spec mp.path mp.method).isSome = true)
    (fun t => secAt t.spec mp.path mp.method = some (some authorizerRequirement))
    props.integrations i hi ?hQ ?hE ?hP (initialBindState spec) st hfold ?hQ0
  case hQ =>
    intro t a t' ha hbind hQt
    obtain ⟨mp₂, -, hspec, -, -, -⟩ := bindIntegration_ok_proj hbind
    show (getOp t'.spec mp.path mp.method).isSome = true
    rw [hspec, isSome_getOp_bindSpec]
    exact hQt
  case hE =>
    intro t t' hbind hQt
    obtain ⟨mp', hmp', hspec, -, -, -⟩ := bindIntegration_ok_proj hbind
    have hmpe : mp' = mp := by
      rw [hmp'] at hmp
      exact Option.some.injEq .. ▸ hmp
    subst hmpe
    show secAt t'.spec mp'.path mp'.method = some (some authorizerRequirement)
    rw [hspec]
    exact secAt_bindSpec_self _ _ _ hauth hQt
  case hP =>
    intro t a t' ha hbind hPt
    obtain ⟨mp₂, -, hspec, -, -, -⟩ := bindIntegration_ok_proj hbind
    show secAt t'.spec mp.path mp.method = some (some authorizerRequirement)
    rw [hspec]
    exact secAt_bindSpec_preserve _ _ _ _ _ hPt
  case hQ0 =>
    obtain ⟨op, hop, -⟩ := getOp_of_methodMapping hpaths hmeths hmp
    show (getOp spec mp.path mp.method).isSome = true
    rw [hop]
    rfl

def exArn : String := "arn:aws:lambda:eu-west-1:123456789012:function:authFn"

def exProps6 : HttpApiProps :=
  ⟨"svc", "./openapi.yml", [exIntegration "listItems", exIntegration "createItem"],
    some exArn, none, none, none⟩

def cr6 : CompositionResult := getOkResult (construct exStack exProps6 exDoc)

theorem C6_witness :
    cr6.spec.components.securitySchemes = [(AUTHORIZER_KEY, toAuthorizerSpec exArn "eu-west-1")] ∧
    secAt cr6.spec "/items" "get" = some (some authorizerRequirement) ∧
    secAt cr6.spec "/items" "post" = some (some authorizerRequirement) := by
  have h := C6_authorizer_patch exStack exProps6 exDoc exArn cr6 rfl (by decide) (by decide) rfl
  refine ⟨h.1, ?_, ?_⟩
  · exact h.2.2 (exIntegration "listItems") (by decide) (MethodMapping.mk "/items" "get")
      (by decide)
  · exact h.2.2 (exIntegration "createItem") (by decide) (MethodMapping.mk "/items" "post")
      (by decide)

/-- C10: with a custom authorizer configured, a successful construction
assigns a fresh securitySchemes mapping holding exactly the single
`custom_authorizer` key; every security scheme of the input document under
any other key is discarded. -/
theorem C10_securitySchemes_replaced (stack : Stack) (props : HttpApiProps) (spec : SpecDoc)
    (arn : String) (r : CompositionResult)
    (harn : props.customAuthorizerLambdaArn = some arn)
    (hok : construct stack props spec = Except.ok r) :
    r.spec.components.securitySchemes = [(AUTHORIZER_KEY, toAuthorizerSpec arn stack.region)] ∧
    r.spec.components.securitySchemes.map Prod.fst = [AUTHORIZER_KEY] ∧
    ∀ k s, (k, s) ∈ spec.components.securitySchemes → ¬ k = AUTHORIZER_KEY →
      ¬ (k, s) ∈ r.spec.components.securitySchemes := by
  have h1 := construct_ok_securitySchemes harn hok
  refine ⟨h1, by rw [h1]; rfl, ?_⟩
  intro k s hmem hne hmem'
  rw [h1] at hmem'
  rcases List.mem_singleton.mp hmem' with heq
  exact hne (congrArg Prod.fst heq)

def exOldScheme : SecurityScheme := ⟨"apiKey", "X-Api-Key", "header", none⟩

def exDoc10 : SpecDoc :=
  ⟨[("/items", [("get", opListItems), ("post", opCreateItem)])],
    ⟨[("old_scheme", exOldScheme)], [("Item", "object")]⟩⟩

def cr10 : CompositionResult := getOkResult (construct exStack exProps6 exDoc10)

theorem C10_witness :
    ("old_scheme", exOldScheme) ∈ exDoc10.components.securitySchemes ∧
    cr10.spec.components.securitySchemes =
      [(AUTHORIZER_KEY, toAuthorizerSpec exArn "eu-west-1")] ∧
    ¬ ("old_scheme", exOldScheme) ∈ cr10.spec.components.securitySchemes := by
  have h := C10_securitySchemes_replaced exStack exProps6 exDoc10 exArn cr10 rfl rfl
  exact ⟨by decide, h.1, h.2.2 "old_scheme" exOldScheme (by decide) (by decide)⟩

/-! ### C1 -/

/-- C1 counterexample, on the end-to-end two-operation scenario of the
specification: construction succeeds, yet both operation nodes of the
resulting document still carry their original invocation-target values
("listItems" / "createItem"); neither equals the corresponding compute
unit's function ARN or invocation URI, so the document does not reference
the compute units as invocation targets. -/
theorem C1_counterexample :
    construct exStack exProps exDoc = Except.ok cr1 ∧
    uriAt cr1.spec "/items" "get" = some "listItems" ∧
    uriAt cr1.spec "/items" "post" = some "createItem" ∧
    recordGet cr1.functions "listItems" = some (mkFunction "svc" (exIntegration "listItems")) ∧
    ¬ functionArn exStack "svc-listItems" = "listItems" ∧
    ¬ lambdaInvocationUri exStack (functionArn exStack "svc-listItems") = "listItems" :=
  ⟨rfl, rfl, rfl, rfl, by decide, by decide⟩

/-- C1 (amended): composition never modifies any operation node's
invocation-target field; instead, for every integration whose operation id
resolves via the method index, it synthesizes a route for that operation's
(method, path) whose target references a gateway integration resource whose
integration URI embeds the corresponding compute unit's function ARN. -/
theorem C1_routes_reference_functions (stack : Stack) (props : HttpApiProps) (spec : SpecDoc)
    (r : CompositionResult)
    (hok : construct stack props spec = Except.ok r) :
    (∀ p m, uriAt r.spec p m = uriAt spec p m) ∧
    ∀ i ∈ props.integrations, ∀ mp,
      recordGet (buildMethodMappings spec) i.operationId = some mp →
      ∃ rt ∈ r.routes,
        rt.routeKey = mp.method.toUpper ++ " " ++ mp.path ∧
        ∃ ci ∈ r.cfnIntegrations,
          rt.target = "integrations/" ++ ci.logicalId ∧
          ci.integrationUri =
            lambdaInvocationUri stack
              (functionArn stack ( props.functionNamePrefix ++ "-" ++ i.operationId)) := by
  obtain ⟨st, hfold, rfl⟩ := construct_ok_iff.mp hok
  constructor
  · intro p m
    rw [assembleResult_spec, uriAt_patchSecuritySchemes]
    refine foldE_preserve _ (fun t => uriAt t.spec p m = uriAt spec p m)
      props.integrations ?_ (initialBindState spec) st hfold rfl
    intro t a t' ha hbind hPt
    obtain ⟨mp₂, -, hspec, -, -, -⟩ := bindIntegration_ok_proj hbind
    show uriAt t'.spec p m = uriAt spec p m
    rw [hspec, uriAt_bindSpec]
    exact hPt
  · intro i hi mp hmp
    show ∃ rt ∈ (assembleResult stack props spec st).routes, _
    have hr : (assembleResult stack props spec st).routes = st.routes := rfl
    have hc : (assembleResult stack props spec st).cfnIntegrations = st.cfnIntegrations := rfl
    rw [hr]
    refine foldE_establish _ (fun _ => True)
      (fun t =>
        ∃ rt ∈ t.routes,
          rt.routeKey = mp.method.toUpper ++ " " ++ mp.path ∧
          ∃ ci ∈ t.cfnIntegrations,
            rt.target = "integrations/" ++ ci.logicalId ∧
            ci.integrationUri =
              lambdaInvocationUri stack
                (functionArn stack ( props.functionNamePrefix ++ "-" ++ i.operationId)))
      props.integrations i hi (fun _ _ _ _ _ _ => trivial) ?hE ?hP
      (initialBindState spec) st hfold trivial
    case hE =>
      rintro t t' hbind -
      obtain ⟨mp', hmp', -, -, hroutes, hcfn⟩ := bindIntegration_ok_proj hbind
      have hmpe : mp' = mp := by
        rw [hmp'] at hmp
        exact Option.some.injEq .. ▸ hmp
      subst hmpe
      refine ⟨mkCfnRoute (mkCfnIntegration stack ( props.functionNamePrefix) i mp') mp', ?_,
        rfl, mkCfnIntegration stack ( props.functionNamePrefix) i mp', ?_, rfl, rfl⟩
      · rw [hroutes]
        exact List.mem_append.mpr (Or.inr (List.mem_singleton.mpr rfl))
      · rw [hcfn]
        exact List.mem_append.mpr (Or.inr (List.mem_singleton.mpr rfl))
    case hP =>
      rintro t a t' ha hbind hPt
      obtain ⟨mp₂, -, -, -, hroutes, hcfn⟩ := bindIntegration_ok_proj hbind
      obtain ⟨rt, hrt, hkey, ci, hci, htgt, huri⟩ := hPt
      exact ⟨rt, hroutes ▸ List.mem_append.mpr (Or.inl hrt), hkey,
        ci, hcfn ▸ List.mem_append.mpr (Or.inl hci), htgt, huri⟩

theorem C1_witness :
    construct exStack exProps exDoc = Except.ok cr1 ∧
    uriAt cr1.spec "/items" "get" = uriAt exDoc "/items" "get" ∧
    uriAt cr1.spec "/items" "post" = uriAt exDoc "/items" "post" ∧
    (∃ rt ∈ cr1.routes, rt.routeKey = "get".toUpper ++ " " ++ "/items") ∧
    (∃ ci ∈ cr1.cfnIntegrations,
      ci.integrationUri = lambdaInvocationUri exStack (functionArn exStack "svc-listItems")) := by
  have h := C1_routes_reference_functions exStack exProps exDoc cr1 rfl
  refine ⟨rfl, h.1 "/items" "get", h.1 "/items" "post", ?_, ?_⟩
  all_goals
    obtain ⟨rt, hrt, hkey, ci, hci, htgt, huri⟩ :=
      h.2 (exIntegration "listItems") (by decide) (MethodMapping.mk "/items" "get") (by decide)
  · exact ⟨rt, hrt, hkey⟩
  · exact ⟨ci, hci, by rw [huri]; rfl⟩
